import Mathlib

/-!
Verification development for the shadow-git configuration backup manager
(`app/services/git_manager.py` and its API layer `app/api/backup.py`).

Paths are modelled as lists of characters (the relative POSIX path string,
`'/'`-separated, as produced by `os.path.normpath` / the walk in the source).
File systems are association lists from paths to file contents; the contents
of a file are modelled as an opaque `String` (only byte-equality matters).

The model elides: timestamps inside generated messages, the short-hash
rendering of commit ids (a commit is identified by its snapshot, which is
faithful to git's content addressing), per-file I/O failures inside the sync
walks (the happy path is modelled; the source logs and skips those), and
`.gitignore` semantics inside the shadow repository (the shadow repository
never creates one).
-/

namespace VibeGit

/-- A relative path, as the list of characters of the `'/'`-separated string. -/
abbrev Path := List Char

/-- The contents of a file. -/
abbrev Content := String

/-- Python's `str.split('/')`: always returns a non-empty list, keeps empty
segments. Mirrors `rel_path.split('/')` in `_should_include_path`. -/
def splitOnSlash : Path → List Path
  | [] => [[]]
  | c :: cs =>
    if c = '/' then [] :: splitOnSlash cs
    else
      match splitOnSlash cs with
      | h :: t => (c :: h) :: t
      | [] => [[c]]

/-- All suffixes of a list, longest first (the list itself included, down to
`[]`). -/
def allSuffixes : List Char → List (List Char)
  | [] => [[]]
  | c :: cs => (c :: cs) :: allSuffixes cs

/-- `fnmatch.fnmatch` for the patterns used by the source: only `*` is a
metacharacter (none of the source's patterns use `?` or `[...]`), matching any
sequence of characters including the empty one (`*` consumes some suffix
split); every other pattern character matches itself. POSIX `fnmatch` does no
case normalisation. -/
def globMatch : List Char → List Char → Bool
  | [], s => s.isEmpty
  | '*' :: ps, s => (allSuffixes s).any fun s2 => globMatch ps s2
  | _ :: _, [] => false
  | c :: ps, x :: s2 => c = x && globMatch ps s2

/-- `fnmatch(filename, pat) or fnmatch(rel_path, pat)`, the test applied to
each pattern of the db/log/backup pattern lists in `_should_include_path`. -/
def matchEither (filename relPath : Path) (pat : String) : Bool :=
  globMatch pat.toList filename || globMatch pat.toList relPath

/-- `db_patterns` of `_should_include_path`. -/
def dbPatterns : List String :=
  ["*.db", "*.db-shm", "*.db-wal", "*.db-journal",
   "*.sqlite", "*.sqlite3", "home-assistant_v2.db*"]

/-- `log_patterns` of `_should_include_path`. -/
def logPatterns : List String :=
  ["*.log", "*.log.*", "home-assistant.log"]

/-- `backup_patterns` of `_should_include_path`. -/
def backupPatterns : List String :=
  ["*.bak", "*.backup", "*.old", "*.tmp", "*.temp", "*~"]

/-- The heavy/internal directory names rejected at top level for directories
in `_should_include_path`. -/
def heavyDirNames : List String :=
  [".storage", ".cloud", ".homeassistant",
   "www", "media", "storage", "tmp",
   "node_modules", "__pycache__"]

/-- `dir_prefix_patterns` of `_should_include_path` (trailing slash kept). -/
def heavyDirPats : List String :=
  [".storage/", ".cloud/", ".homeassistant/",
   "www/", "media/", "storage/", "tmp/"]

/-- `GitManager._should_include_path(rel_path, is_dir)`.

On POSIX `rel_path.replace(os.sep, '/')` is the identity, so the model starts
at the split. The structure mirrors the source: first the shadow-repo /
`.git` top-level check, then the directory branch, then the file-level checks
(secrets, key/cert extensions, db patterns, log patterns, backup patterns,
heavy-directory prefixes), each of which returns `False`; `True` otherwise. -/
def shouldIncludePath (relPath : Path) (isDir : Bool) : Bool :=
  let parts := splitOnSlash relPath
  let p0 := parts.headD []
  if p0 = (".git").toList ∨ p0 = ("ha_vibecode_git").toList then false
  else if isDir then
    !(heavyDirNames.any fun d => p0 = d.toList)
  else
    let filename := parts.getLastD []
    !((filename = ("secrets.yaml").toList || filename = (".secrets.yaml").toList)
      || (globMatch ("*.pem").toList filename || globMatch ("*.key").toList filename
            || globMatch ("*.crt").toList filename)
      || dbPatterns.any (matchEither filename relPath)
      || logPatterns.any (matchEither filename relPath)
      || backupPatterns.any (matchEither filename relPath)
      || heavyDirPats.any fun d => d.toList.isPrefixOf relPath)

/-! ### File systems -/

/-- A directory tree: an association list from relative paths to contents.
Lookup takes the first matching entry. -/
abbrev FS := List (Path × Content)

/-- Look up the contents of a file. -/
def fsGet : FS → Path → Option Content
  | [], _ => none
  | (q, v) :: t, p => if q = p then some v else fsGet t p

/-- Decidable extensional equality of two file systems: every path visible in
either one holds the same contents in both (hence, by absence elsewhere, the
two agree at every path; see `fsEqv_iff`). Models
`repo.is_dirty(untracked_files=True)`'s comparison between the working tree
and the head snapshot. -/
def fsEqv (f g : FS) : Bool :=
  (f.map Prod.fst ++ g.map Prod.fst).all fun p => fsGet f p == fsGet g p

/-- The path components of the parent directory chain (all but the last). -/
def dirnameParts (p : Path) : List Path := (splitOnSlash p).dropLast

/-- Some parent-directory component is named `.git`: both walks of
`_sync_shadow_to_config` drop `'.git'` from `dirs` at every level, so such a
file is never visited there. -/
def inGitDirname (p : Path) : Bool :=
  (dirnameParts p).any (· = (".git").toList)

/-- Visited by the `/config` walk of the `delete_missing` pass of
`_sync_shadow_to_config`: that walk drops directories named `.git` or
`ha_vibecode_git` from `dirs` at every level. -/
def configVisited (p : Path) : Bool :=
  (dirnameParts p).all fun d =>
    d ≠ (".git").toList && d ≠ ("ha_vibecode_git").toList

/-- Trackable by git: git refuses to track any path with a component named
`.git`, so `git add -A` skips such paths and they stay untracked. -/
def trackablePath (p : Path) : Bool :=
  (splitOnSlash p).all (· ≠ (".git").toList)

/-- The proper ancestor directories of a path (as `'/'`-joined relative
paths), in walk order: for `a/b/c.yaml` these are `a` and `a/b`. -/
def ancestorPaths (p : Path) : List Path :=
  let parts := splitOnSlash p
  (List.range (parts.length - 1)).map fun i =>
    List.intercalate ['/'] (parts.take (i + 1))

/-- A file is reached and copied by the `/config` → shadow walk of
`_sync_config_to_shadow`: every ancestor directory passes the directory-level
filter (otherwise `os.walk` prunes the subtree) and the file itself passes
the file-level filter. -/
def includedPush (p : Path) : Bool :=
  ((ancestorPaths p).all fun d => shouldIncludePath d true)
    && shouldIncludePath p false

/-- `GitManager._sync_config_to_shadow`: copy every walk-included `/config`
file into the shadow worktree, then delete every shadow file (outside `.git`
directories, which both walks skip) whose path was not part of this push's
included set. -/
def syncPush (live shadow : FS) : FS :=
  let pushed := live.filter fun e => includedPush e.1
  pushed ++ shadow.filter fun e =>
    inGitDirname e.1 && (fsGet pushed e.1).isNone

/-- `GitManager._sync_shadow_to_config(only_paths=None, delete_missing=True)`:
copy every shadow file outside `.git` directories into `/config`
(overwriting), then delete from `/config` every file that the delete walk
visits, that passes the file-level filter, and that has no counterpart among
the shadow's visited files. -/
def syncPullAllDelete (shadow live : FS) : FS :=
  let copyable := shadow.filter fun e => !(inGitDirname e.1)
  let live1 := copyable ++ live
  live1.filter fun e =>
    !(configVisited e.1 && shouldIncludePath e.1 false
        && (fsGet copyable e.1).isNone)

/-! ### The snapshot store -/

/-- A commit: message plus the snapshot of the trackable shadow worktree.
The snapshot itself stands for the commit id (git ids are content
addresses). -/
structure Commit where
  message : String
  tree : FS
deriving DecidableEq

/-- The snapshot a commit of the current worktree would take:
`git add -A` stages every trackable file and `index.commit` snapshots it. -/
def trackOf (f : FS) : FS := f.filter fun e => trackablePath e.1

/-- The tree of the head commit; an empty repository tracks nothing. -/
def headTree (hist : List Commit) : FS :=
  ((hist.head?).map Commit.tree).getD []

/-- `git reset --hard <target>` on the shadow worktree: untrackable paths are
untouched; a trackable path takes the target's contents when the target has
it, is removed when only the head tracks it, and is left alone when neither
tracks it (an untracked file). -/
def resetHard (hist : List Commit) (shadow : FS) (target : FS) : FS :=
  target.filter (fun e => trackablePath e.1)
    ++ shadow.filter fun e =>
      !trackablePath e.1
        || ((fsGet target e.1).isNone && (fsGet (headTree hist) e.1).isNone)

/-- The whole manager state: the live `/config` tree, the shadow worktree
(sans git metadata), the linear commit history (newest first), the
`processing_request` flag, the `git_versioning_auto` setting, `max_backups`,
and the created tag names. -/
structure St where
  live : FS
  shadow : FS
  hist : List Commit
  processing : Bool
  auto : Bool
  maxBackups : Nat
  tags : List String
deriving DecidableEq

/-- The auto-generated commit message (timestamp elided). -/
def autoMsg : String := "Auto-commit by HA Cursor Agent"

/-- `if not message:` — `None` and the empty string both fall back to the
auto-generated message. -/
def resolveMsg (msg : Option String) : String :=
  match msg with
  | none => autoMsg
  | some m => if m.isEmpty then autoMsg else m

/-- `GitManager._cleanup_old_commits` /
`GitManager._cleanup_using_clone_depth`: truncate the linear history to the
last `keep` commits by re-cloning with `--depth keep` and swapping only the
`.git` metadata directory; the worktree files and `/config` are never
touched. -/
def cleanupCloneDepth (keep : Nat) (s : St) : St :=
  { s with hist := s.hist.take keep }

/-- `GitManager.commit_changes(message, skip_if_processing, force)`.

In order (as in the source): skip entirely when `skip_if_processing` and the
processing flag are both set; push live → shadow; return `None` when the
worktree is clean against the head (`is_dirty(untracked_files=True)`);
return `None` (sync only) when auto mode is off and `force` is not set;
otherwise stage everything, commit, and when the commit count of the current
line of history has reached `max_backups`, clean up down to
`max(10, max_backups - 10)` commits. Returns the created commit. -/
def commitChanges (msg : Option String) (skipIfProcessing force : Bool)
    (s : St) : St × Option Commit :=
  if skipIfProcessing && s.processing then (s, none)
  else
    let sh := syncPush s.live s.shadow
    if fsEqv (trackOf sh) (headTree s.hist) then
      ({ s with shadow := sh }, none)
    else if !s.auto && !force then
      ({ s with shadow := sh }, none)
    else
      let c : Commit := ⟨resolveMsg msg, trackOf sh⟩
      let h1 := c :: s.hist
      let s2 := { s with shadow := sh, hist := h1 }
      if h1.length ≥ s.maxBackups then
        (cleanupCloneDepth (max 10 (s.maxBackups - 10)) s2, some c)
      else (s2, some c)

/-- `GitManager.commit_changes` with the commit step's fallibility made
explicit: the body runs in a `try`/`except` that returns `None` on any
exception, so a failing `git add`/`index.commit` (after the sync already
ran) yields the same `None` as the nothing-to-commit outcome. -/
def commitChangesF (commitFails : Bool) (msg : Option String)
    (skipIfProcessing force : Bool) (s : St) : St × Option Commit :=
  if skipIfProcessing && s.processing then (s, none)
  else
    let sh := syncPush s.live s.shadow
    if fsEqv (trackOf sh) (headTree s.hist) then
      ({ s with shadow := sh }, none)
    else if !s.auto && !force then
      ({ s with shadow := sh }, none)
    else if commitFails then
      ({ s with shadow := sh }, none)
    else
      let c : Commit := ⟨resolveMsg msg, trackOf sh⟩
      let h1 := c :: s.hist
      let s2 := { s with shadow := sh, hist := h1 }
      if h1.length ≥ s.maxBackups then
        (cleanupCloneDepth (max 10 (s.maxBackups - 10)) s2, some c)
      else (s2, some c)

/-- The `create_backup` endpoint's response to the outcome of
`commit_changes(message, force=True)`: `None` maps to a success response
reading `"No changes to commit"`, a commit id maps to a success response
(the id interpolation is elided). -/
def createBackupResponse (r : Option Commit) : Bool × String :=
  match r with
  | none => (true, "No changes to commit")
  | some _ => (true, "Backup created")

/-- The result dictionary of `GitManager.create_checkpoint`. -/
structure CheckpointResult where
  success : Bool
  message : String
  commitId : Option Commit
  tag : Option String
  timestamp : Option String
deriving DecidableEq

/-- `GitManager.create_checkpoint(user_request)` with the fallibility of
`repo.create_tag` made explicit (`tagFails`: e.g. a duplicate tag name; the
source logs the exception and continues). Force-commits the current state,
falls back to the current head for the reported commit id, attempts to
create the `checkpoint_<timestamp>` tag, sets the processing flag, and
returns success with the tag name and timestamp. -/
def createCheckpoint (desc : String) (tagFails : Bool) (ts : String)
    (s : St) : St × CheckpointResult :=
  let r := commitChanges (some ("Checkpoint before: " ++ desc)) false true s
  let commitId : Option Commit :=
    match r.2 with
    | some c => some c
    | none => r.1.hist.head?
  let tagName := "checkpoint_" ++ ts
  let s2 := { r.1 with
    processing := true
    tags := if tagFails then r.1.tags else tagName :: r.1.tags }
  (s2, ⟨true, "Checkpoint created: " ++ tagName, commitId, some tagName,
        some ts⟩)

/-- `GitManager.end_request_processing`. -/
def endCheckpoint (s : St) : St := { s with processing := false }

/-- `GitManager.rollback(commit_hash)`: force-commit the current state
(safety snapshot), then `git reset --hard` the shadow worktree to the target
revision, then pull everything back into `/config` with deletion of files
missing from the selected commit. `target = none` models a revision that
fails to resolve: the reset raises, the exception propagates
(re-raised as `Rollback failed`), and `/config` is never touched. The
returned Bool is the success of the operation. -/
def rollback (target : Option Commit) (s : St) : St × Bool :=
  let s1 := (commitChanges (some ("Before rollback")) false true s).1
  match target with
  | none => (s1, false)
  | some t =>
    let sh := resetHard s1.hist s1.shadow t.tree
    let live2 := syncPullAllDelete sh s1.live
    ({ s1 with shadow := sh, live := live2 }, true)

/-! ### Concrete states used by witnesses and counterexamples -/

/-- A live tree holding one ordinary config file and one file inside a
top-level `node_modules` directory. -/
def exLive1 : FS :=
  [(("configuration.yaml").toList, "a"), (("node_modules/x.txt").toList, "b")]

/-- Fresh manager state over `exLive1`: empty shadow worktree, empty history,
auto mode on, `max_backups = 30`. -/
def exSt1 : St := ⟨exLive1, [], [], false, true, 30, []⟩

/-- The commit `commit_changes("m1")` creates from `exSt1`. -/
def exC1 : Commit := ⟨"m1", [(("configuration.yaml").toList, "a")]⟩

/-- A state carrying 30 existing commits with `max_backups = 30`, one dirty
config file, ready to trigger the automatic cleanup on the next commit. -/
def exSt2 : St :=
  ⟨[(("configuration.yaml").toList, "a")], [],
   List.replicate 30 ⟨"old", []⟩, false, true, 30, []⟩

/-- The commit created from `exSt2`. -/
def exC2 : Commit := ⟨"m", [(("configuration.yaml").toList, "a")]⟩

/-- An older commit, rollback target for the rollback examples. -/
def exTgt : Commit := ⟨"old", [(("configuration.yaml").toList, "v1")]⟩

/-- A live tree that moved on from `exTgt` and also gained a file nested
inside a directory named `ha_vibecode_git`. -/
def exSt5 : St :=
  ⟨[(("configuration.yaml").toList, "v2"),
    (("a/ha_vibecode_git/x.yaml").toList, "z")],
   [], [exTgt], false, true, 30, []⟩

/-- Fresh auto-mode state with one config file, used to build the
post-checkpoint state. -/
def exSt6 : St := ⟨[(("configuration.yaml").toList, "x")], [], [], false, true, 30, []⟩

/-- The state right after `create_checkpoint("d")` on `exSt6`, followed by an
external edit of the config file (pending changes exist). -/
def exSt6b : St :=
  { (createCheckpoint ("d") false ("ts") exSt6).1 with
    live := [(("configuration.yaml").toList, "y")] }

/-- Dirty state with auto-commit mode administratively disabled. -/
def exSt7 : St := ⟨[(("configuration.yaml").toList, "a")], [], [], false, false, 30, []⟩

/-- Dirty auto-mode state (a pending change exists). -/
def exSt8 : St := ⟨[(("configuration.yaml").toList, "a")], [], [], false, true, 30, []⟩

/-- Clean state: nothing to commit (empty live tree, empty history). -/
def exSt8c : St := ⟨[], [], [], false, true, 30, []⟩

/-! ### Pointwise characterisations of the file-system operations -/

theorem fsGet_filter (q : Path → Bool) (l : FS) (p : Path) :
    fsGet (l.filter fun e => q e.1) p = if q p then fsGet l p else none := by
  induction l with
  | nil => simp [fsGet]
  | cons e t ih =>
    obtain ⟨k, v⟩ := e
    by_cases hq : q k
    · by_cases hk : k = p
      · subst hk; simp [List.filter_cons, fsGet, hq]
      · simp [List.filter_cons, hq, fsGet, hk, ih]
    · by_cases hk : k = p
      · subst hk; simp [List.filter_cons, hq, fsGet, ih]
      · simp [List.filter_cons, hq, fsGet, hk, ih]

theorem fsGet_append (a b : FS) (p : Path) :
    fsGet (a ++ b) p = (fsGet a p).or (fsGet b p) := by
  induction a with
  | nil => simp [fsGet]
  | cons e t ih =>
    obtain ⟨k, v⟩ := e
    by_cases hk : k = p <;> simp [fsGet, hk, ih]

theorem fsGet_eq_none (l : FS) (p : Path) (h : p ∉ l.map Prod.fst) :
    fsGet l p = none := by
  induction l with
  | nil => rfl
  | cons e t ih =>
    obtain ⟨k, v⟩ := e
    simp only [List.map_cons, List.mem_cons] at h
    push_neg at h
    simp [fsGet, Ne.symm h.1, ih h.2]

theorem fsGet_mem_of_some {l : FS} {p : Path} {v : Content}
    (h : fsGet l p = some v) : (p, v) ∈ l := by
  induction l with
  | nil => simp [fsGet] at h
  | cons e t ih =>
    obtain ⟨k, w⟩ := e
    by_cases hk : k = p
    · subst hk
      have hw : w = v := by simpa [fsGet] using h
      subst hw; exact List.mem_cons_self _ _
    · simp only [fsGet, if_neg hk] at h
      exact List.mem_cons_of_mem _ (ih h)

theorem fsEqv_iff (f g : FS) :
    fsEqv f g = true ↔ ∀ p, fsGet f p = fsGet g p := by
  constructor
  · intro h p
    rw [fsEqv, List.all_eq_true] at h
    by_cases hf : p ∈ f.map Prod.fst
    · have := h p (List.mem_append_left _ hf)
      simpa using this
    · by_cases hg : p ∈ g.map Prod.fst
      · have := h p (List.mem_append_right _ hg)
        simpa using this
      · rw [fsGet_eq_none f p hf, fsGet_eq_none g p hg]
  · intro h
    rw [fsEqv, List.all_eq_true]
    intro p _
    simp [h p]

theorem syncPush_get (l sh : FS) (p : Path) :
    fsGet (syncPush l sh) p =
      if includedPush p && (fsGet l p).isSome then fsGet l p
      else if inGitDirname p then fsGet sh p else none := by
  unfold syncPush
  rw [fsGet_append,
    fsGet_filter (fun x => includedPush x) l p,
    fsGet_filter
      (fun x => inGitDirname x
        && (fsGet (l.filter fun e => includedPush e.1) x).isNone) sh p,
    fsGet_filter (fun x => includedPush x) l p]
  by_cases hi : includedPush p <;> by_cases hg : inGitDirname p <;>
    cases hl : fsGet l p <;> simp [hi, hg, hl]

theorem trackOf_get (f : FS) (p : Path) :
    fsGet (trackOf f) p = if trackablePath p then fsGet f p else none := by
  unfold trackOf
  exact fsGet_filter (fun x => trackablePath x) f p

theorem resetHard_get (hist : List Commit) (sh t : FS) (p : Path) :
    fsGet (resetHard hist sh t) p =
      if trackablePath p then
        match fsGet t p with
        | some v => some v
        | none =>
          if (fsGet (headTree hist) p).isSome then none else fsGet sh p
      else fsGet sh p := by
  unfold resetHard
  rw [fsGet_append,
    fsGet_filter (fun x => trackablePath x) t p,
    fsGet_filter
      (fun x => !trackablePath x
        || ((fsGet t x).isNone && (fsGet (headTree hist) x).isNone)) sh p]
  by_cases htr : trackablePath p <;>
    cases ht : fsGet t p <;>
    cases hh : fsGet (headTree hist) p <;>
    simp [htr, ht, hh]

theorem pullDelete_get (sh l : FS) (p : Path) :
    fsGet (syncPullAllDelete sh l) p =
      if configVisited p && shouldIncludePath p false
          && (if inGitDirname p then none else fsGet sh p).isNone then none
      else (if inGitDirname p then none else fsGet sh p).or (fsGet l p) := by
  unfold syncPullAllDelete
  rw [fsGet_filter
      (fun x => !(configVisited x && shouldIncludePath x false
        && (fsGet (sh.filter fun e => !(inGitDirname e.1)) x).isNone))
      _ p,
    fsGet_append, fsGet_filter (fun x => !(inGitDirname x)) sh p]
  by_cases hv : configVisited p <;>
    by_cases hf : shouldIncludePath p false <;>
    by_cases hg : inGitDirname p <;>
    cases hs : fsGet sh p <;>
    simp [hv, hf, hg, hs]

/-! ### Path-predicate facts -/

theorem trackable_not_inGitDirname {p : Path} (h : trackablePath p = true) :
    inGitDirname p = false := by
  unfold trackablePath at h
  unfold inGitDirname
  rw [List.all_eq_true] at h
  rw [Bool.eq_false_iff]
  intro hany
  rw [List.any_eq_true] at hany
  obtain ⟨d, hd, hdq⟩ := hany
  have hmem : d ∈ splitOnSlash p := (List.dropLast_sublist _).subset hd
  have := h d hmem
  simp only [decide_eq_true_eq] at this hdq
  exact this hdq

theorem inGitDirname_not_configVisited {p : Path} (h : inGitDirname p = true) :
    configVisited p = false := by
  unfold inGitDirname at h
  unfold configVisited
  rw [List.any_eq_true] at h
  obtain ⟨d, hd, hdq⟩ := h
  rw [Bool.eq_false_iff]
  intro hall
  rw [List.all_eq_true] at hall
  have := hall d hd
  simp only [decide_eq_true_eq] at hdq
  simp [hdq] at this

theorem includedPush_file {p : Path} (h : includedPush p = true) :
    shouldIncludePath p false = true := by
  unfold includedPush at h
  simp only [Bool.and_eq_true] at h
  exact h.2

/-- Splitting a path whose first component contains no slash peels off that
component. -/
theorem splitOnSlash_append (a : Path) (ha : '/' ∉ a) (rest : Path) :
    splitOnSlash (a ++ '/' :: rest) = a :: splitOnSlash rest := by
  induction a with
  | nil => simp [splitOnSlash]
  | cons c cs ih =>
    simp only [List.mem_cons, not_or] at ha
    have hc : ¬(c = '/') := fun h => ha.1 h.symm
    simp [splitOnSlash, hc, ih ha.2]

/-- A slash-free string splits to the singleton of itself. -/
theorem splitOnSlash_no_slash (a : Path) (ha : '/' ∉ a) :
    splitOnSlash a = [a] := by
  induction a with
  | nil => rfl
  | cons c cs ih =>
    simp only [List.mem_cons, not_or] at ha
    have hc : ¬(c = '/') := fun h => ha.1 h.symm
    simp [splitOnSlash, hc, ih ha.2]

/-- For the directory-level filter only the first path component matters:
prepending a slash-free first component dominates the decision. -/
theorem shouldIncludePath_dir_head (a : Path) (rest : Path) (ha : '/' ∉ a) :
    shouldIncludePath (a ++ '/' :: rest) true = shouldIncludePath a true := by
  unfold shouldIncludePath
  rw [splitOnSlash_append a ha rest, splitOnSlash_no_slash a ha]
  rfl

/-- Any file path starting with one of the heavy-directory prefix patterns
is rejected by the file-level filter. -/
theorem shouldIncludePath_pat_rejected (e : String) (he : e ∈ heavyDirPats)
    (rest : Path) :
    shouldIncludePath (e.toList ++ rest) false = false := by
  have hpre : (heavyDirPats.any
      fun d => d.toList.isPrefixOf (e.toList ++ rest)) = true := by
    rw [List.any_eq_true]
    refine ⟨e, he, ?_⟩
    rw [List.isPrefixOf_iff_prefix]
    exact List.prefix_append _ _
  unfold shouldIncludePath
  dsimp only
  split
  · rfl
  · simp only [hpre, Bool.or_true, Bool.not_true]
    rfl

/-! ### Structure of the state-machine operations -/

/-- `commit_changes` never writes to the live `/config` tree. -/
theorem commitChanges_live (msg : Option String) (sk fo : Bool) (s : St) :
    (commitChanges msg sk fo s).1.live = s.live := by
  unfold commitChanges cleanupCloneDepth
  dsimp only
  split_ifs <;> rfl

/-- When `commit_changes` returns a commit, it took the commit branch:
the shadow was synced, the commit snapshots the synced trackable worktree,
and the history gained the commit and was truncated exactly when the count
reached `max_backups`. -/
theorem commitChanges_some_spec (msg : Option String) (sk fo : Bool) (s : St)
    (c : Commit) (h : (commitChanges msg sk fo s).2 = some c) :
    c = ⟨resolveMsg msg, trackOf (syncPush s.live s.shadow)⟩ ∧
    (commitChanges msg sk fo s).1.shadow = syncPush s.live s.shadow ∧
    (commitChanges msg sk fo s).1.hist =
      (if (c :: s.hist).length ≥ s.maxBackups then
        (c :: s.hist).take (max 10 (s.maxBackups - 10))
      else c :: s.hist) ∧
    (commitChanges msg sk fo s).1.live = s.live := by
  have hc : c = ⟨resolveMsg msg, trackOf (syncPush s.live s.shadow)⟩ := by
    unfold commitChanges at h
    dsimp only at h
    split_ifs at h <;> simp_all
  subst hc
  refine ⟨rfl, ?_, ?_, ?_⟩ <;>
    (unfold commitChanges cleanupCloneDepth at h ⊢
     dsimp only at h ⊢
     split_ifs at h ⊢ <;> simp_all)

/-- Full-state version of the inversion: when `commit_changes` creates a
commit, the resulting state is the pre-prune state with the cleanup applied
exactly when the new commit count reached `max_backups`. -/
theorem commitChanges_some_state (msg : Option String) (sk fo : Bool)
    (s : St) (c : Commit) (h : (commitChanges msg sk fo s).2 = some c) :
    (commitChanges msg sk fo s).1 =
      (if (c :: s.hist).length ≥ s.maxBackups then
        cleanupCloneDepth (max 10 (s.maxBackups - 10))
          { s with shadow := syncPush s.live s.shadow, hist := c :: s.hist }
      else { s with shadow := syncPush s.live s.shadow, hist := c :: s.hist }) := by
  have hc : c = ⟨resolveMsg msg, trackOf (syncPush s.live s.shadow)⟩ := by
    unfold commitChanges at h
    dsimp only at h
    split_ifs at h <;> simp_all
  subst hc
  unfold commitChanges cleanupCloneDepth at h ⊢
  dsimp only at h ⊢
  split_ifs at h ⊢ <;> simp_all

/-- The head of the history after taking at least one commit. -/
theorem headTree_cons_take (c : Commit) (t : List Commit) (n : Nat)
    (h : 1 ≤ n) : headTree ((c :: t).take n) = c.tree := by
  rw [List.take_cons (by omega)]
  rfl

/-- After a commit returns some commit, the head tree is that commit's
snapshot. -/
theorem commitChanges_some_headTree (msg : Option String) (sk fo : Bool)
    (s : St) (c : Commit) (h : (commitChanges msg sk fo s).2 = some c) :
    headTree ((commitChanges msg sk fo s).1.hist) = c.tree := by
  obtain ⟨-, -, hh, -⟩ := commitChanges_some_spec msg sk fo s c h
  rw [hh]
  split_ifs
  · exact headTree_cons_take c s.hist _ (by omega)
  · rfl

/-- A forced, non-skipping `commit_changes` (the safety commit used by
checkpoint and rollback) always syncs the shadow worktree, leaves the live
tree alone, and ends with the trackable worktree agreeing with the head
snapshot (whether or not a commit was created). -/
theorem safetyCommit_spec (msg : Option String) (s : St) :
    (commitChanges msg false true s).1.shadow = syncPush s.live s.shadow ∧
    (commitChanges msg false true s).1.live = s.live ∧
    ∀ p, fsGet (trackOf ((commitChanges msg false true s).1.shadow)) p
        = fsGet (headTree ((commitChanges msg false true s).1.hist)) p := by
  by_cases hc : ∃ c, (commitChanges msg false true s).2 = some c
  · obtain ⟨c, hc⟩ := hc
    obtain ⟨hcE, hsh, hh, hl⟩ := commitChanges_some_spec msg false true s c hc
    refine ⟨hsh, hl, ?_⟩
    intro p
    rw [commitChanges_some_headTree msg false true s c hc, hsh, hcE]
  · push_neg at hc
    have h2 : (commitChanges msg false true s).2 = none := by
      cases hr : (commitChanges msg false true s).2 with
      | none => rfl
      | some c => exact absurd hr (hc c)
    unfold commitChanges at h2 ⊢
    dsimp only at h2 ⊢
    split_ifs at h2 ⊢ <;> try simp_all
    all_goals
      intro p
      rename_i hEq
      exact (fsEqv_iff _ _).mp hEq p

/-- Unfolding of a rollback whose revision fails to resolve. -/
theorem rollback_none (s : St) :
    rollback none s = ((commitChanges (some ("Before rollback")) false true s).1, false) := rfl

/-- Unfolding of a rollback to a resolvable revision. -/
theorem rollback_some (t : Commit) (s : St) :
    rollback (some t) s =
      ({ (commitChanges (some ("Before rollback")) false true s).1 with
          shadow := resetHard
            ((commitChanges (some ("Before rollback")) false true s).1.hist)
            ((commitChanges (some ("Before rollback")) false true s).1.shadow)
            t.tree,
          live := syncPullAllDelete
            (resetHard
              ((commitChanges (some ("Before rollback")) false true s).1.hist)
              ((commitChanges (some ("Before rollback")) false true s).1.shadow)
              t.tree)
            ((commitChanges (some ("Before rollback")) false true s).1.live) },
        true) := rfl

/-- Pushing twice in a row with an unchanged live tree changes nothing
(idempotence of the push sync). -/
theorem syncPush_idem (l sh : FS) (p : Path) :
    fsGet (syncPush l (syncPush l sh)) p = fsGet (syncPush l sh) p := by
  rw [syncPush_get, syncPush_get]
  by_cases hi : includedPush p <;> by_cases hg : inGitDirname p <;>
    cases hl : fsGet l p <;> simp [hi, hg, hl]

/-- Inside `rollback`, after the safety commit, the hard reset leaves the
shadow worktree holding exactly the target snapshot on trackable paths and
the freshly synced worktree elsewhere (untrackable paths survive a hard
reset untouched, and the safety commit guarantees the trackable worktree
agrees with the head, so no stale tracked file survives). -/
theorem rollback_reset_get (s : St) (t : Commit) (p : Path) :
    fsGet (resetHard
        ((commitChanges (some ("Before rollback")) false true s).1.hist)
        ((commitChanges (some ("Before rollback")) false true s).1.shadow)
        t.tree) p
      = if trackablePath p then fsGet t.tree p
        else fsGet (syncPush s.live s.shadow) p := by
  obtain ⟨hsh, -, hhead⟩ := safetyCommit_spec (some ("Before rollback")) s
  rw [resetHard_get]
  by_cases htr : trackablePath p
  · rw [if_pos htr, if_pos htr]
    cases ht : fsGet t.tree p with
    | some v => rfl
    | none =>
      have hh : fsGet (headTree
            ((commitChanges (some ("Before rollback")) false true s).1.hist)) p
          = fsGet (syncPush s.live s.shadow) p := by
        rw [← hhead p, trackOf_get, if_pos htr, hsh]
      rw [hh, hsh]
      cases hc : fsGet (syncPush s.live s.shadow) p <;> simp [hc]
  · rw [if_neg htr, if_neg htr, hsh]

/-! ### Claim C1 -/

/-- Claim C1, counterexample. The path `node_modules/x.txt` passes the
file-level Path Filter (it is "filter-passing": only the directory-level
rule knows `node_modules`, and the file-level prefix rule does not list it),
and is present in the live tree when `commit_changes("m1")` runs; yet after
`rollback` to the very commit that call returned, the file is gone from the
live tree — the push prunes the `node_modules` directory, so the commit
lacks the file, and the delete-missing pass of the rollback pull visits it,
finds it filter-passing and missing from the shadow, and deletes it. Hence
the filter-passing live content is not byte-identical across the
commit/rollback round trip. -/
theorem claim1_counterexample :
    shouldIncludePath (("node_modules/x.txt").toList) false = true ∧
    fsGet exSt1.live (("node_modules/x.txt").toList) = some ("b") ∧
    (commitChanges (some ("m1")) false true exSt1).2 = some exC1 ∧
    fsGet ((rollback (some exC1)
        (commitChanges (some ("m1")) false true exSt1).1).1.live)
      (("node_modules/x.txt").toList) = none := by decide

/-- Claim C1 (amended): for any prior state, if `commit_changes("m1")`
creates a commit, then an immediate `rollback` to that commit leaves the
live tree byte-identical at every Push-included path — every path accepted
by the Path Filter at the file level and at every ancestor-directory level
(the content the Sync Engine actually tracks). -/
theorem claim1_roundtrip (s : St) (sk fo : Bool) (c : Commit)
    (h : (commitChanges (some ("m1")) sk fo s).2 = some c) (p : Path)
    (hp : includedPush p = true) :
    fsGet ((rollback (some c)
        (commitChanges (some ("m1")) sk fo s).1).1.live) p
      = fsGet s.live p := by
  obtain ⟨hcE, hsh, hhist, hlive⟩ := commitChanges_some_spec _ sk fo s c h
  rw [rollback_some]
  dsimp only
  have hs2live : (commitChanges (some ("Before rollback")) false true
      (commitChanges (some ("m1")) sk fo s).1).1.live
      = (commitChanges (some ("m1")) sk fo s).1.live :=
    (safetyCommit_spec _ _).2.1
  rw [hs2live, hlive, pullDelete_get]
  have hsh3 : fsGet (resetHard
      ((commitChanges (some ("Before rollback")) false true
        (commitChanges (some ("m1")) sk fo s).1).1.hist)
      ((commitChanges (some ("Before rollback")) false true
        (commitChanges (some ("m1")) sk fo s).1).1.shadow)
      c.tree) p = fsGet (syncPush s.live s.shadow) p := by
    rw [rollback_reset_get ((commitChanges (some ("m1")) sk fo s).1) c p]
    by_cases htr : trackablePath p
    · rw [if_pos htr, hcE]
      dsimp only
      rw [trackOf_get, if_pos htr]
    · rw [if_neg htr, hlive, hsh]
      exact syncPush_idem s.live s.shadow p
  rw [hsh3]
  by_cases hgit : inGitDirname p
  · have hvis := inGitDirname_not_configVisited hgit
    simp [hgit, hvis]
  · have hA := syncPush_get s.live s.shadow p
    rw [hp] at hA
    cases hL : fsGet s.live p with
    | some v =>
      rw [hL] at hA
      simp only [Option.isSome_some, Bool.true_and, if_true] at hA
      simp [hgit, hA, hL]
    | none =>
      rw [hL] at hA
      simp only [Option.isSome_none, Bool.and_false, if_false,
        if_neg hgit] at hA
      by_cases hcond : configVisited p ∧ shouldIncludePath p false = true
      · simp [hgit, hA, hL, hcond.1, hcond.2]
      · rw [not_and_or] at hcond
        rcases hcond with hc1 | hc2
        · simp only [Bool.not_eq_true] at hc1
          simp [hgit, hA, hL, hc1]
        · simp only [Bool.not_eq_true] at hc2
          simp [hgit, hA, hL, hc2]

/-- Claim C1, witness: the amended round trip evaluated at the concrete
state `exSt1` and the Push-included path `configuration.yaml`. -/
theorem claim1_roundtrip_witness :
    (commitChanges (some ("m1")) false true exSt1).2 = some exC1 ∧
    includedPush (("configuration.yaml").toList) = true ∧
    fsGet ((rollback (some exC1)
        (commitChanges (some ("m1")) false true exSt1).1).1.live)
      (("configuration.yaml").toList)
      = fsGet exSt1.live (("configuration.yaml").toList) :=
  ⟨by decide, by decide,
   claim1_roundtrip exSt1 false true exC1 (by decide) _ (by decide)⟩

/-! ### Claim C2 -/

/-- Claim C2: after every commit that `commit_changes` creates, the commit
count of the current line of history is checked; when that count has reached
`max_backups`, the history is pruned down to `max(10, max_backups - 10)`
commits, and the prune changes the history only — the shadow worktree and
the live tree of the pre-prune state are byte-identical to those of the
post-prune state. -/
theorem claim2_prune (msg : Option String) (sk fo : Bool) (s : St)
    (c : Commit) (h : (commitChanges msg sk fo s).2 = some c)
    (htrig : (c :: s.hist).length ≥ s.maxBackups) :
    (commitChanges msg sk fo s).1
        = cleanupCloneDepth (max 10 (s.maxBackups - 10))
            { s with shadow := syncPush s.live s.shadow,
                     hist := c :: s.hist } ∧
    (cleanupCloneDepth (max 10 (s.maxBackups - 10))
        { s with shadow := syncPush s.live s.shadow,
                 hist := c :: s.hist }).shadow
      = ({ s with shadow := syncPush s.live s.shadow,
                  hist := c :: s.hist } : St).shadow ∧
    (cleanupCloneDepth (max 10 (s.maxBackups - 10))
        { s with shadow := syncPush s.live s.shadow,
                 hist := c :: s.hist }).live
      = ({ s with shadow := syncPush s.live s.shadow,
                  hist := c :: s.hist } : St).live ∧
    (cleanupCloneDepth (max 10 (s.maxBackups - 10))
        { s with shadow := syncPush s.live s.shadow,
                 hist := c :: s.hist }).hist
      = (c :: s.hist).take (max 10 (s.maxBackups - 10)) := by
  refine ⟨?_, rfl, rfl, rfl⟩
  rw [commitChanges_some_state msg sk fo s c h, if_pos htrig]

/-- Claim C2, witness: a state with 30 existing commits and
`max_backups = 30`; the 31st commit triggers the prune down to 20 commits,
with shadow and live untouched. -/
theorem claim2_prune_witness :
    (commitChanges (some ("m")) false true exSt2).2 = some exC2 ∧
    (exC2 :: exSt2.hist).length ≥ exSt2.maxBackups ∧
    (commitChanges (some ("m")) false true exSt2).1
      = cleanupCloneDepth (max 10 (exSt2.maxBackups - 10))
          { exSt2 with shadow := syncPush exSt2.live exSt2.shadow,
                       hist := exC2 :: exSt2.hist } :=
  ⟨by decide, by decide,
   (claim2_prune (some ("m")) false true exSt2 exC2 (by decide) (by decide)).1⟩

/-! ### Claim C3 -/

/-- Claim C3: filter exclusion is symmetric. For every relative path the
Path Filter rejects at the file level, the push sync never creates a file
there in the shadow worktree (if the shadow had no file at that path before,
it has none after), and the pull sync with `delete_missing=True` never
removes a live file at that path (if the live tree has the file, it still
has a file there afterwards). -/
theorem claim3_filter_symmetric (live shadow : FS) (p : Path)
    (hrej : shouldIncludePath p false = false) :
    (fsGet shadow p = none → fsGet (syncPush live shadow) p = none) ∧
    ((fsGet live p).isSome →
      (fsGet (syncPullAllDelete shadow live) p).isSome) := by
  have hincl : includedPush p = false := by
    unfold includedPush
    rw [hrej]
    simp
  constructor
  · intro hs
    rw [syncPush_get, hincl]
    simp [hs]
  · intro hl
    rw [pullDelete_get, hrej]
    simp only [Bool.and_false, Bool.false_and, Bool.false_eq_true,
      if_false]
    cases hg : inGitDirname p <;> cases hsh : fsGet shadow p <;>
      simp_all [Option.or]

/-- Claim C3, witness: the rejected path `home-assistant.log`, present in
the live tree and absent from the shadow. -/
theorem claim3_filter_symmetric_witness :
    shouldIncludePath (("home-assistant.log").toList) false = false ∧
    fsGet ([] : FS) (("home-assistant.log").toList) = none ∧
    fsGet (syncPush [((("home-assistant.log").toList), "L")] [])
      (("home-assistant.log").toList) = none ∧
    (fsGet (syncPullAllDelete []
        [((("home-assistant.log").toList), "L")])
      (("home-assistant.log").toList)).isSome :=
  ⟨by decide, by decide,
   (claim3_filter_symmetric [((("home-assistant.log").toList), "L")] []
      _ (by decide)).1 (by decide),
   (claim3_filter_symmetric [((("home-assistant.log").toList), "L")] []
      _ (by decide)).2 (by decide)⟩

/-! ### Claim C4 -/

/-- Claim C4, counterexample. The claim says the filter rejects the known
directory names at any depth, for the directory itself and for files beneath
it; but `_should_include_path` checks only the first path component for
directories, so the nested directory `sub/node_modules` is accepted
(`is_dir=True`), and the file-level prefix rule does not list
`node_modules/`, so the file `node_modules/a.txt` directly beneath a
top-level `node_modules` is accepted at the file level as well. -/
theorem claim4_counterexample :
    shouldIncludePath (("sub/node_modules").toList) true = true ∧
    shouldIncludePath (("node_modules/a.txt").toList) false = true := by
  decide

/-- Claim C4 (amended): the directory-name rejection applies at the top
level only. For every known heavy directory name `d`, the filter rejects
`d` itself and any directory path whose first component is `d`
(`is_dir=True`); and for every prefix pattern `e` of the file-level rule
(`.storage/`, `.cloud/`, `.homeassistant/`, `www/`, `media/`, `storage/`,
`tmp/` — `node_modules/` and `__pycache__/` are absent), any file path
starting with `e` is rejected at the file level. -/
theorem claim4_topLevel (d e : String) (hd : d ∈ heavyDirNames)
    (he : e ∈ heavyDirPats) :
    shouldIncludePath d.toList true = false ∧
    (∀ rest : Path,
      shouldIncludePath (d.toList ++ '/' :: rest) true = false) ∧
    (∀ rest : Path,
      shouldIncludePath (e.toList ++ rest) false = false) := by
  refine ⟨?_, ?_, fun rest => shouldIncludePath_pat_rejected e he rest⟩
  · fin_cases hd <;> decide
  · intro rest
    fin_cases hd <;>
      (rw [shouldIncludePath_dir_head _ rest (by decide)]; decide)

/-- Claim C4, witness: the amended statement evaluated at `.storage` (a
heavy directory name) and `www/` (a file-level prefix pattern). -/
theorem claim4_topLevel_witness :
    (".storage" ∈ heavyDirNames) ∧ ("www/" ∈ heavyDirPats) ∧
    shouldIncludePath ((".storage").toList) true = false ∧
    shouldIncludePath ((".storage").toList ++ '/' :: ("x").toList) true
      = false ∧
    shouldIncludePath (("www/").toList ++ ("img.png").toList) false
      = false :=
  ⟨by decide, by decide,
   (claim4_topLevel (".storage") ("www/") (by decide) (by decide)).1,
   (claim4_topLevel (".storage") ("www/") (by decide) (by decide)).2.1 _,
   (claim4_topLevel (".storage") ("www/") (by decide) (by decide)).2.2 _⟩

/-! ### Claim C5 -/

/-- Claim C5, counterexample. A successful rollback does not always leave
the live tree matching the target revision: the file
`a/ha_vibecode_git/x.yaml` is Push-included and trackable (it is committed
by every snapshot while present), it is absent from the target revision,
yet after a successful rollback it is still present in the live tree,
because the delete walk of the pull prunes every directory named
`ha_vibecode_git` at any depth and never visits it. -/
theorem claim5_counterexample :
    (rollback (some exTgt) exSt5).2 = true ∧
    includedPush (("a/ha_vibecode_git/x.yaml").toList) = true ∧
    trackablePath (("a/ha_vibecode_git/x.yaml").toList) = true ∧
    fsGet exTgt.tree (("a/ha_vibecode_git/x.yaml").toList) = none ∧
    fsGet ((rollback (some exTgt) exSt5).1.live)
      (("a/ha_vibecode_git/x.yaml").toList) = some ("z") := by decide

/-- Claim C5 (amended): rollback force-commits a safety snapshot first and
never touches the live tree when the revision fails to resolve (the failure
outcome leaves the live tree exactly as it was at the safety snapshot). On
success, every file of the target revision is restored byte-identically
into the live tree, and on every Push-included, trackable path that the
delete walk visits (no ancestor directory named `.git` or
`ha_vibecode_git`), the live tree ends up agreeing exactly with the target
snapshot; paths the delete walk skips may survive unchanged. The target
snapshot is assumed to be a committed tree (all its paths Push-included and
trackable), which holds for every commit this manager creates. -/
theorem claim5_rollback_atomic (s : St) (t : Commit)
    (htree : t.tree.all
      (fun e => includedPush e.1 && trackablePath e.1) = true) :
    (rollback none s).2 = false ∧
    (rollback none s).1.live = s.live ∧
    (rollback (some t) s).2 = true ∧
    (∀ p v, fsGet t.tree p = some v →
        fsGet ((rollback (some t) s).1.live) p = some v) ∧
    (∀ p, includedPush p = true → trackablePath p = true →
        configVisited p = true →
        fsGet ((rollback (some t) s).1.live) p = fsGet t.tree p) := by
  refine ⟨rfl, ?_, rfl, ?_, ?_⟩
  · rw [rollback_none]
    exact commitChanges_live (some ("Before rollback")) false true s
  · intro p v hv
    have hmem := fsGet_mem_of_some hv
    rw [List.all_eq_true] at htree
    have hpv := htree _ hmem
    simp only [Bool.and_eq_true] at hpv
    obtain ⟨hincl, htrk⟩ := hpv
    rw [rollback_some]
    dsimp only
    rw [pullDelete_get]
    have hr := rollback_reset_get s t p
    rw [if_pos htrk] at hr
    have hgit : inGitDirname p = false := trackable_not_inGitDirname htrk
    rw [hr, hv]
    simp [hgit]
  · intro p hincl htrk hvis
    rw [rollback_some]
    dsimp only
    rw [pullDelete_get]
    have hr := rollback_reset_get s t p
    rw [if_pos htrk] at hr
    have hgit : inGitDirname p = false := trackable_not_inGitDirname htrk
    rw [hr]
    cases ht : fsGet t.tree p with
    | some v => simp [hgit, ht]
    | none =>
      have hfile := includedPush_file hincl
      simp [hgit, ht, hvis, hfile]

/-- Claim C5, witness: the amended rollback contract evaluated at the
concrete state `exSt5` and target `exTgt`, restoring
`configuration.yaml` to its old contents. -/
theorem claim5_rollback_atomic_witness :
    exTgt.tree.all
      (fun e => includedPush e.1 && trackablePath e.1) = true ∧
    (rollback none exSt5).1.live = exSt5.live ∧
    fsGet exTgt.tree (("configuration.yaml").toList) = some ("v1") ∧
    fsGet ((rollback (some exTgt) exSt5).1.live)
      (("configuration.yaml").toList) = some ("v1") :=
  ⟨by decide,
   (claim5_rollback_atomic exSt5 exTgt (by decide)).2.1,
   by decide,
   (claim5_rollback_atomic exSt5 exTgt (by decide)).2.2.2.1 _ _ (by decide)⟩

/-! ### Claim C6 -/

/-- Claim C6, counterexample. The ProcessingFlag does not suppress every
subsequent non-forced `commit_changes` call: suppression requires the
caller to pass `skip_if_processing=True`, and a call with the default
arguments (`skip_if_processing=False`, `force=False`) — the form every
auto-commit call site in the repository actually uses — ignores the flag
and creates a commit when pending changes exist. `exSt6b` is the state
right after `create_checkpoint("d")` (flag set) followed by an external
edit (pending changes). -/
theorem claim6_counterexample :
    exSt6b.processing = true ∧
    fsEqv (trackOf (syncPush exSt6b.live exSt6b.shadow))
      (headTree exSt6b.hist) = false ∧
    (commitChanges none false false exSt6b).2.isSome = true := by decide

/-- Claim C6 (amended): the checkpoint suppression holds for suppressible
calls. While the ProcessingFlag is set, a non-forced call passing
`skip_if_processing=True` returns no commit and leaves the state entirely
unchanged; after `end_request_processing` clears the flag, the identical
call (auto mode on, pending changes present) does create a commit. -/
theorem claim6_suppression (s : St) (msg : Option String)
    (hproc : s.processing = true) (hauto : s.auto = true)
    (hdirty : fsEqv (trackOf (syncPush s.live s.shadow))
      (headTree s.hist) = false) :
    commitChanges msg true false s = (s, none) ∧
    ((commitChanges msg true false (endCheckpoint s)).2).isSome = true := by
  constructor
  · unfold commitChanges
    rw [hproc]
    rfl
  · unfold commitChanges endCheckpoint
    dsimp only
    rw [if_neg (by simp)]
    rw [if_neg (by simp [hdirty])]
    rw [if_neg (by simp [hauto])]
    split <;> rfl

/-- Claim C6, witness: the amended suppression contract at the concrete
post-checkpoint state `exSt6b`. -/
theorem claim6_suppression_witness :
    exSt6b.processing = true ∧ exSt6b.auto = true ∧
    fsEqv (trackOf (syncPush exSt6b.live exSt6b.shadow))
      (headTree exSt6b.hist) = false ∧
    (commitChanges none true false exSt6b = (exSt6b, none) ∧
     ((commitChanges none true false (endCheckpoint exSt6b)).2).isSome
        = true) :=
  ⟨by decide, by decide, by decide,
   claim6_suppression exSt6b none (by decide) (by decide) (by decide)⟩

/-! ### Claim C7 -/

/-- Claim C7: with auto-commit mode administratively disabled, `force` not
set, and pending changes present, `commit_changes` performs the
live-to-shadow sync but creates no commit: the result state is the input
state with only the shadow worktree replaced by the synced one (history,
live tree, flags untouched), and the returned value is the no-commit
result. -/
theorem claim7_autoOff (s : St) (msg : Option String)
    (hauto : s.auto = false)
    (hdirty : fsEqv (trackOf (syncPush s.live s.shadow))
      (headTree s.hist) = false) :
    commitChanges msg false false s
      = ({ s with shadow := syncPush s.live s.shadow }, none) := by
  unfold commitChanges
  dsimp only
  rw [if_neg (by simp)]
  rw [if_neg (by simp [hdirty])]
  rw [if_pos (by simp [hauto])]

/-- Claim C7, witness: the auto-off sync-only behaviour at the concrete
dirty state `exSt7`. -/
theorem claim7_autoOff_witness :
    exSt7.auto = false ∧
    fsEqv (trackOf (syncPush exSt7.live exSt7.shadow))
      (headTree exSt7.hist) = false ∧
    commitChanges none false false exSt7
      = ({ exSt7 with shadow := syncPush exSt7.live exSt7.shadow }, none) :=
  ⟨by decide, by decide, claim7_autoOff exSt7 none (by decide) (by decide)⟩

/-! ### Claim C8 -/

/-- Claim C8, counterexample. The nothing-to-commit outcome is not
distinguishable from a failure of the operation: `commit_changes` returns
`None` both when there is nothing to commit and when the commit step raises
(the body's `except` swallows the exception and returns `None`), and the
`create_backup` endpoint maps both to the identical success response
`"No changes to commit"`. Here `exSt8` has pending changes and its commit
step fails, while `exSt8c` genuinely has nothing to commit. -/
theorem claim8_counterexample :
    fsEqv (trackOf (syncPush exSt8.live exSt8.shadow))
      (headTree exSt8.hist) = false ∧
    (commitChangesF true (some ("m")) false true exSt8).2 = none ∧
    fsEqv (trackOf (syncPush exSt8c.live exSt8c.shadow))
      (headTree exSt8c.hist) = true ∧
    (commitChangesF false (some ("m")) false true exSt8c).2 = none ∧
    createBackupResponse (commitChangesF true (some ("m")) false true exSt8).2
      = createBackupResponse
          (commitChangesF false (some ("m")) false true exSt8c).2 := by decide

/-- Claim C8 (amended): when `commit_changes` finds no changes after the
sync, it returns `None` and creates no commit — a normal no-op that the
`create_backup` endpoint reports as a success response reading
`"No changes to commit"`; however the same `None` (and the same API
response) also results from an internal commit failure, so the two are not
distinguishable from the returned value. -/
theorem claim8_nothingToCommit (s : St) (msg : Option String) (sk fo : Bool)
    (hskip : (sk && s.processing) = false)
    (hclean : fsEqv (trackOf (syncPush s.live s.shadow))
      (headTree s.hist) = true) :
    commitChanges msg sk fo s
      = ({ s with shadow := syncPush s.live s.shadow }, none) ∧
    createBackupResponse (commitChanges msg sk fo s).2
      = (true, "No changes to commit") := by
  have h1 : commitChanges msg sk fo s
      = ({ s with shadow := syncPush s.live s.shadow }, none) := by
    unfold commitChanges
    rw [if_neg (by simp [hskip])]
    dsimp only
    rw [if_pos hclean]
  refine ⟨h1, ?_⟩
  rw [h1]
  rfl

/-- Claim C8, witness: the no-change outcome at the concrete clean state
`exSt8c`. -/
theorem claim8_nothingToCommit_witness :
    ((false && exSt8c.processing) = false) ∧
    fsEqv (trackOf (syncPush exSt8c.live exSt8c.shadow))
      (headTree exSt8c.hist) = true ∧
    (commitChanges (some ("m")) false false exSt8c
        = ({ exSt8c with shadow := syncPush exSt8c.live exSt8c.shadow },
            none) ∧
     createBackupResponse (commitChanges (some ("m")) false false exSt8c).2
        = (true, "No changes to commit")) :=
  ⟨by decide, by decide,
   claim8_nothingToCommit exSt8c (some ("m")) false false (by decide)
     (by decide)⟩

/-! ### Claim C9 -/

/-- Claim C9: `create_checkpoint` returns `success=True` together with the
generated tag name and timestamp, and sets the ProcessingFlag, even when
creating the checkpoint tag fails (for example a duplicate tag name): the
tag-creation failure changes neither the returned result nor the flag
transition, nor any of the live tree, shadow worktree or history. -/
theorem claim9_checkpoint_tagFailure (s : St) (desc ts : String) :
    (createCheckpoint desc true ts s).2
        = (createCheckpoint desc false ts s).2 ∧
    (createCheckpoint desc true ts s).2.success = true ∧
    (createCheckpoint desc true ts s).2.tag = some ("checkpoint_" ++ ts) ∧
    (createCheckpoint desc true ts s).2.timestamp = some ts ∧
    (createCheckpoint desc true ts s).1.processing = true ∧
    (createCheckpoint desc true ts s).1.live
        = (createCheckpoint desc false ts s).1.live ∧
    (createCheckpoint desc true ts s).1.shadow
        = (createCheckpoint desc false ts s).1.shadow ∧
    (createCheckpoint desc true ts s).1.hist
        = (createCheckpoint desc false ts s).1.hist :=
  ⟨rfl, rfl, rfl, rfl, rfl, rfl, rfl, rfl⟩

/-! ### Claim C10 -/

/-- Claim C10: when the ProcessingFlag is set and `commit_changes` is
invoked as a suppressible auto-commit (`skip_if_processing=True`,
`force=False`), the call returns immediately with no commit and performs no
live-to-shadow sync at all — the entire state is returned unchanged —
unlike the auto-mode-off case, where the sync still runs (the shadow
worktree is replaced by the synced one) even though no commit is created. -/
theorem claim10_frame (s s2 : St) (msg msg2 : Option String)
    (hproc : s.processing = true)
    (hproc2 : s2.processing = false) (hauto2 : s2.auto = false) :
    commitChanges msg true false s = (s, none) ∧
    (commitChanges msg2 true false s2).1.shadow
      = syncPush s2.live s2.shadow ∧
    (commitChanges msg2 true false s2).2 = none := by
  refine ⟨?_, ?_, ?_⟩
  · unfold commitChanges
    rw [hproc]
    rfl
  · unfold commitChanges
    rw [hproc2, if_neg (by simp)]
    dsimp only
    split
    · rfl
    · rw [if_pos (by simp [hauto2])]
  · unfold commitChanges
    rw [hproc2, if_neg (by simp)]
    dsimp only
    split
    · rfl
    · rw [if_pos (by simp [hauto2])]

/-- Claim C10, witness: the frame condition at the concrete states
`exSt6b` (flag set) and `exSt7` (flag clear, auto mode off). -/
theorem claim10_frame_witness :
    exSt6b.processing = true ∧ exSt7.processing = false ∧
    exSt7.auto = false ∧
    (commitChanges none true false exSt6b = (exSt6b, none) ∧
     (commitChanges none true false exSt7).1.shadow
        = syncPush exSt7.live exSt7.shadow ∧
     (commitChanges none true false exSt7).2 = none) :=
  ⟨by decide, by decide, by decide,
   claim10_frame exSt6b exSt7 none none (by decide) (by decide)
     (by decide)⟩

end VibeGit
